import Mathlib

/-!
Shallow embedding of `libqtile/backend/wayland/output.py` (the wayland
`Output` class): layer-shell arrangement (`organise_layers` and
`_organise_layer`), the exclusive keyboard-focus scan, the frame handler
(`_on_frame`), the geometry queries (`get_geometry`, `contains`) and the
`screen` accessor.  External collaborators (the wlroots scene-layer
`configure` capability, the scene-output commit, the monotonic clock, the
focus router and the reserve-space sink) are modelled from the spec's
interface descriptions; their observable calls are recorded in an event log.
-/

namespace QtileOutput

/-- Layer-shell layers, in protocol order (the enum value is the bucket
index; `reversed` iteration is OVERLAY, TOP, BOTTOM, BACKGROUND). -/
inductive LayerShellV1Layer : Type
  | background
  | bottom
  | top
  | overlay
deriving DecidableEq, Repr

/-- Keyboard interactivity modes of a layer surface. -/
inductive KeyboardInteractivity : Type
  | noneKI
  | onDemand
  | exclusive
deriving DecidableEq, Repr

/-- Modelled from the spec: the screen edge a layer surface is anchored to,
the edge along which its exclusive zone shrinks the usable area. -/
inductive Edge : Type
  | top
  | bottom
  | left
  | right
deriving DecidableEq, Repr

/-- Committed (current) state of a layer surface, as read by the Output. -/
structure SurfaceState : Type where
  exclusive_zone : Int
  anchor : Edge
  desired_width : Int
  desired_height : Int
  keyboard_interactive : KeyboardInteractivity
deriving DecidableEq, Repr

/-- Double-buffered surface state; the core only reads `current`. -/
structure LayerSurface : Type where
  current : SurfaceState
deriving DecidableEq, Repr

/-- One layer-shell client surface (`LayerStatic` in the source).  The `id`
field models Python object identity (the source compares holders with
`is`); distinct surfaces carry distinct ids. -/
structure LayerStatic : Type where
  id : Nat
  surface : LayerSurface
deriving DecidableEq, Repr

/-- Geometry box, as `wlroots.util.box.Box`. -/
structure Box : Type where
  x : Int
  y : Int
  width : Int
  height : Int
deriving DecidableEq, Repr

/-- One display output: position, effective resolution, the four layer
buckets (insertion order is intra-layer stacking order) and the stored
reserved-space margins. -/
structure Output : Type where
  x : Int
  y : Int
  effectiveWidth : Int
  effectiveHeight : Int
  background : List LayerStatic
  bottom : List LayerStatic
  top : List LayerStatic
  overlay : List LayerStatic
  reserved_space : Int × Int × Int × Int
deriving DecidableEq, Repr

/-- Bucket lookup, `self.layers[layer]` in the source. -/
def Output.layersAt (o : Output) : LayerShellV1Layer → List LayerStatic
  | LayerShellV1Layer.background => o.background
  | LayerShellV1Layer.bottom => o.bottom
  | LayerShellV1Layer.top => o.top
  | LayerShellV1Layer.overlay => o.overlay

/-- Iteration order of `reversed(LayerShellV1Layer)`: top-to-bottom. -/
def layersReversed : List LayerShellV1Layer :=
  [LayerShellV1Layer.overlay, LayerShellV1Layer.top,
   LayerShellV1Layer.bottom, LayerShellV1Layer.background]

/-- Observable calls the arrangement makes on external collaborators. -/
inductive Event : Type
  | configureCall (win : LayerStatic) (usable : Box)
  | placeCall (win : LayerStatic)
  | reserveCall (delta : Int × Int × Int × Int)
  | focusCall (win : LayerStatic)
deriving DecidableEq, Repr

/-- Modelled from the spec: the surface placement capability
`scene_layer.configure(full_area, usable_area)` (wlroots, external to this
repository).  When the surface is exclusive (`exclusive_zone > 0`) it
shrinks the usable area along the surface's anchored edge by the exclusive
zone; otherwise it leaves the usable area unchanged. -/
def configure (state : SurfaceState) (full usable : Box) : Box :=
  if 0 < state.exclusive_zone then
    match state.anchor with
    | Edge.top =>
        { usable with y := usable.y + state.exclusive_zone,
                      height := usable.height - state.exclusive_zone }
    | Edge.bottom =>
        { usable with height := usable.height - state.exclusive_zone }
    | Edge.left =>
        { usable with x := usable.x + state.exclusive_zone,
                      width := usable.width - state.exclusive_zone }
    | Edge.right =>
        { usable with width := usable.width - state.exclusive_zone }
  else usable

/-- Body of `Output._organise_layer`: walk one bucket in stacking order;
skip a surface when `exclusive != (0 < state.exclusive_zone)`; otherwise
call its configure capability (recording the usable area it was given) and
place it.  Returns the final usable area and the emitted events. -/
def organise_layer : List LayerStatic → Box → Box → Bool → Box × List Event
  | [], _, usable, _ => (usable, [])
  | win :: rest, full, usable, exclusive =>
    if exclusive != decide (0 < win.surface.current.exclusive_zone) then
      organise_layer rest full usable exclusive
    else
      let usable1 := configure win.surface.current full usable
      let r := organise_layer rest full usable1 exclusive
      (r.1, Event.configureCall win usable :: Event.placeCall win :: r.2)

/-- One pass of `organise_layers`: `_organise_layer` over every layer in
`reversed(LayerShellV1Layer)` order. -/
def organise_pass (o : Output) (full usable : Box) (exclusive : Bool) :
    Box × List Event :=
  layersReversed.foldl
    (fun acc layer =>
      let r := organise_layer (o.layersAt layer) full acc.1 exclusive
      (r.1, acc.2 ++ r.2))
    (usable, [])

/-- Result of the exclusive keyboard-focus scan. -/
structure FocusScan : Type where
  holder : Option LayerStatic
  focused : List LayerStatic
  visited : List LayerStatic
deriving DecidableEq, Repr

/-- The exclusive-focus scan at the end of `organise_layers`: walk the
OVERLAY then TOP surfaces; on the first surface whose committed
`keyboard_interactive` is EXCLUSIVE, record it as holder, focus it and
return; when the current holder is visited and is no longer EXCLUSIVE,
clear the holder and continue. -/
def scanFocus : List LayerStatic → Option LayerStatic → FocusScan
  | [], holder => ⟨holder, [], []⟩
  | win :: rest, holder =>
    if win.surface.current.keyboard_interactive = KeyboardInteractivity.exclusive then
      ⟨some win, [win], [win]⟩
    else if holder = some win then
      let r := scanFocus rest none
      ⟨r.holder, r.focused, win :: r.visited⟩
    else
      let r := scanFocus rest holder
      ⟨r.holder, r.focused, win :: r.visited⟩

/-- The new reserved space computed from the usable area left by the
exclusive pass: (left, right, top, bottom) margins. -/
def new_reserved_space (ow oh : Int) (usable : Box) : Int × Int × Int × Int :=
  (usable.x, ow - usable.x - usable.width,
   usable.y, oh - usable.y - usable.height)

/-- Componentwise difference of two margin 4-tuples. -/
def delta4 (a b : Int × Int × Int × Int) : Int × Int × Int × Int :=
  (a.1 - b.1, a.2.1 - b.2.1, a.2.2.1 - b.2.2.1, a.2.2.2 - b.2.2.2)

/-- Result of one `organise_layers` call: the updated output (stored
reserved space), the compositor-wide exclusive-focus holder
(`core.exclusive_layer`) after the scan, and the event log. -/
structure OrganiseOutcome : Type where
  out : Output
  holder : Option LayerStatic
  log : List Event
deriving DecidableEq, Repr

/-- `Output.organise_layers`.  The exclusive-focus holder is the
compositor-wide `core.exclusive_layer` field, passed in and returned. -/
def organise_layers (o : Output) (holder : Option LayerStatic) :
    OrganiseOutcome :=
  let ow := o.effectiveWidth
  let oh := o.effectiveHeight
  let full_area : Box := ⟨0, 0, ow, oh⟩
  let ex := organise_pass o full_area ⟨0, 0, ow, oh⟩ true
  let nrs := new_reserved_space ow oh ex.1
  let d := delta4 nrs o.reserved_space
  let nonex := organise_pass o full_area ex.1 false
  let scan := scanFocus (o.layersAt LayerShellV1Layer.overlay ++
      o.layersAt LayerShellV1Layer.top) holder
  { out := { o with reserved_space := nrs },
    holder := scan.holder,
    log := ex.2 ++ [Event.reserveCall d] ++ nonex.2 ++
      scan.focused.map Event.focusCall }

/-- `Output.get_geometry`. -/
def get_geometry (o : Output) : Int × Int × Int × Int :=
  (o.x, o.y, o.effectiveWidth, o.effectiveHeight)

/-- `Output.contains`: four early-out comparisons against the output's
bounding box, then `True`. -/
def contains (o : Output) (rect : Box) : Bool :=
  if rect.x + rect.width < o.x then false
  else if rect.y + rect.height < o.y then false
  else if o.x + o.effectiveWidth < rect.x then false
  else if o.y + o.effectiveHeight < rect.y then false
  else true

/-- A configured desktop screen, as read from `core.qtile.screens`. -/
structure Screen : Type where
  id : Nat
  x : Int
  y : Int
  width : Int
  height : Int
deriving DecidableEq, Repr

/-- The search loop inside the `screen` accessor: first screen whose
position, then size, exactly match the geometry. -/
def screen_search (x y w h : Int) : List Screen → Option Screen
  | [] => none
  | s :: rest =>
    if s.x = x ∧ s.y = y then
      if s.width = w ∧ s.height = h then some s
      else screen_search x y w h rest
    else screen_search x y w h rest

/-- The `Output.screen` accessor: with more than one configured screen,
return the first exact geometry match, else the current screen. -/
def Output.screen (o : Output) (screens : List Screen)
    (current_screen : Screen) : Screen :=
  if 1 < screens.length then
    match screen_search o.x o.y o.effectiveWidth o.effectiveHeight screens with
    | some s => s
    | none => current_screen
  else current_screen

/-- Observable effects of the frame handler. -/
inductive FrameEffect : Type
  | sendFrameDone (timestamp : Int)
deriving DecidableEq, Repr

/-- `Output._on_frame`: try to commit the scene output; on the
backend-reported failure (RuntimeError) return silently; on success send
frame-done with the monotonic-clock sample. -/
def on_frame (commitResult : Except Unit Unit) (monotonicTime : Int) :
    List FrameEffect :=
  match commitResult with
  | Except.error _ => []
  | Except.ok _ => [FrameEffect.sendFrameDone monotonicTime]

/-! Derived views of the event log. -/

/-- Surfaces whose configure capability was invoked, in call order. -/
def configuredSurfaces (log : List Event) : List LayerStatic :=
  log.filterMap fun e =>
    match e with
    | Event.configureCall w _ => some w
    | _ => none

/-- Deltas reported to the desktop-usable-area sink, in call order. -/
def reportedDeltas (log : List Event) : List (Int × Int × Int × Int) :=
  log.filterMap fun e =>
    match e with
    | Event.reserveCall d => some d
    | _ => none

/-- Windows the focus router was asked to focus, in call order. -/
def focusRequests (log : List Event) : List LayerStatic :=
  log.filterMap fun e =>
    match e with
    | Event.focusCall w => some w
    | _ => none

/-- All surfaces of an output in the top-to-bottom scan order used by both
arrangement passes. -/
def scanOrder (o : Output) : List LayerStatic :=
  o.overlay ++ o.top ++ o.bottom ++ o.background

/-- Boolean form of the EXCLUSIVE keyboard-interactivity test. -/
def wantsExclusiveFocus (w : LayerStatic) : Bool :=
  decide (w.surface.current.keyboard_interactive = KeyboardInteractivity.exclusive)

/-! Basic unfolding lemmas. -/

theorem organise_pass_eq (o : Output) (full usable : Box) (exclusive : Bool) :
    organise_pass o full usable exclusive =
      (let r1 := organise_layer o.overlay full usable exclusive
       let r2 := organise_layer o.top full r1.1 exclusive
       let r3 := organise_layer o.bottom full r2.1 exclusive
       let r4 := organise_layer o.background full r3.1 exclusive
       (r4.1, r1.2 ++ (r2.2 ++ (r3.2 ++ r4.2)))) := by
  simp [organise_pass, layersReversed, Output.layersAt, List.append_assoc]

theorem organise_layers_holder (o : Output) (h : Option LayerStatic) :
    (organise_layers o h).holder = (scanFocus (o.overlay ++ o.top) h).holder :=
  rfl

theorem organise_layers_out (o : Output) (h : Option LayerStatic) :
    (organise_layers o h).out =
      { o with reserved_space :=
          (new_reserved_space o.effectiveWidth o.effectiveHeight
            (organise_pass o ⟨0, 0, o.effectiveWidth, o.effectiveHeight⟩
              ⟨0, 0, o.effectiveWidth, o.effectiveHeight⟩ true).1) } :=
  rfl

theorem organise_layers_log (o : Output) (h : Option LayerStatic) :
    (organise_layers o h).log =
      (organise_pass o ⟨0, 0, o.effectiveWidth, o.effectiveHeight⟩
          ⟨0, 0, o.effectiveWidth, o.effectiveHeight⟩ true).2 ++
      [Event.reserveCall (delta4
        (new_reserved_space o.effectiveWidth o.effectiveHeight
          (organise_pass o ⟨0, 0, o.effectiveWidth, o.effectiveHeight⟩
            ⟨0, 0, o.effectiveWidth, o.effectiveHeight⟩ true).1)
        o.reserved_space)] ++
      (organise_pass o ⟨0, 0, o.effectiveWidth, o.effectiveHeight⟩
        (organise_pass o ⟨0, 0, o.effectiveWidth, o.effectiveHeight⟩
          ⟨0, 0, o.effectiveWidth, o.effectiveHeight⟩ true).1 false).2 ++
      (scanFocus (o.overlay ++ o.top) h).focused.map Event.focusCall :=
  rfl

/-! Lemmas about one bucket walk. -/

theorem organise_layer_skip (w : LayerStatic) (rest : List LayerStatic)
    (full usable : Box) (exclusive : Bool)
    (hb : (exclusive == decide (0 < w.surface.current.exclusive_zone)) = false) :
    organise_layer (w :: rest) full usable exclusive =
      organise_layer rest full usable exclusive := by
  have hbne : (exclusive != decide (0 < w.surface.current.exclusive_zone)) = true := by
    simp [bne, hb]
  simp [organise_layer, hbne]

theorem organise_layer_take (w : LayerStatic) (rest : List LayerStatic)
    (full usable : Box) (exclusive : Bool)
    (hb : (exclusive == decide (0 < w.surface.current.exclusive_zone)) = true) :
    organise_layer (w :: rest) full usable exclusive =
      ((organise_layer rest full (configure w.surface.current full usable) exclusive).1,
        Event.configureCall w usable :: Event.placeCall w ::
          (organise_layer rest full (configure w.surface.current full usable) exclusive).2) := by
  have hbne : (exclusive != decide (0 < w.surface.current.exclusive_zone)) = false := by
    simp [bne, hb]
  simp [organise_layer, hbne]

theorem organise_layer_configured (l : List LayerStatic) (full usable : Box)
    (exclusive : Bool) :
    configuredSurfaces (organise_layer l full usable exclusive).2 =
      l.filter (fun w => exclusive == decide (0 < w.surface.current.exclusive_zone)) := by
  induction l generalizing usable with
  | nil => rfl
  | cons w rest ih =>
    rcases Bool.eq_false_or_eq_true
        (exclusive == decide (0 < w.surface.current.exclusive_zone)) with hb | hb
    · rw [organise_layer_take w rest full usable exclusive hb,
        List.filter_cons, hb]
      simp only [configuredSurfaces, List.filterMap_cons] at ih ⊢
      rw [ih]
      simp
    · rw [organise_layer_skip w rest full usable exclusive hb, ih,
        List.filter_cons, hb]
      simp

theorem organise_layer_events (l : List LayerStatic) (full usable : Box)
    (exclusive : Bool) :
    ∀ e ∈ (organise_layer l full usable exclusive).2,
      (∃ w b, e = Event.configureCall w b) ∨ ∃ w, e = Event.placeCall w := by
  induction l generalizing usable with
  | nil => intro e he; simp [organise_layer] at he
  | cons w rest ih =>
    intro e he
    rcases Bool.eq_false_or_eq_true
        (exclusive == decide (0 < w.surface.current.exclusive_zone)) with hb | hb
    · rw [organise_layer_take w rest full usable exclusive hb] at he
      simp only [List.mem_cons] at he
      rcases he with he | he | he
      · exact Or.inl ⟨w, usable, he⟩
      · exact Or.inr ⟨w, he⟩
      · exact ih (configure w.surface.current full usable) e he
    · rw [organise_layer_skip w rest full usable exclusive hb] at he
      exact ih usable e he

theorem organise_layer_no_reserve (l : List LayerStatic) (full usable : Box)
    (exclusive : Bool) :
    reportedDeltas (organise_layer l full usable exclusive).2 = [] := by
  rw [reportedDeltas, List.filterMap_eq_nil_iff]
  intro e he
  rcases organise_layer_events l full usable exclusive e he with ⟨w, b, rfl⟩ | ⟨w, rfl⟩ <;> rfl

theorem organise_layer_no_focus (l : List LayerStatic) (full usable : Box)
    (exclusive : Bool) :
    focusRequests (organise_layer l full usable exclusive).2 = [] := by
  rw [focusRequests, List.filterMap_eq_nil_iff]
  intro e he
  rcases organise_layer_events l full usable exclusive e he with ⟨w, b, rfl⟩ | ⟨w, rfl⟩ <;> rfl

theorem configure_of_nonpos (state : SurfaceState) (full usable : Box)
    (hz : ¬ 0 < state.exclusive_zone) :
    configure state full usable = usable := by
  simp [configure, hz]

theorem organise_layer_usable_nonexclusive (l : List LayerStatic)
    (full usable : Box) :
    (organise_layer l full usable false).1 = usable := by
  induction l generalizing usable with
  | nil => rfl
  | cons w rest ih =>
    rcases Bool.eq_false_or_eq_true
        (false == decide (0 < w.surface.current.exclusive_zone)) with hb | hb
    · have hz : ¬ 0 < w.surface.current.exclusive_zone := by
        simp at hb
        simp [hb]
      rw [organise_layer_take w rest full usable false hb]
      simp only [configure_of_nonpos _ _ _ hz]
      exact ih usable
    · rw [organise_layer_skip w rest full usable false hb, ih]

theorem organise_layer_configure_usable (l : List LayerStatic)
    (full usable : Box) (w : LayerStatic) (b : Box)
    (hmem : Event.configureCall w b ∈ (organise_layer l full usable false).2) :
    b = usable := by
  induction l generalizing usable with
  | nil => simp [organise_layer] at hmem
  | cons v rest ih =>
    rcases Bool.eq_false_or_eq_true
        (false == decide (0 < v.surface.current.exclusive_zone)) with hb | hb
    · have hz : ¬ 0 < v.surface.current.exclusive_zone := by
        simp at hb
        simp [hb]
      rw [organise_layer_take v rest full usable false hb] at hmem
      simp only [configure_of_nonpos _ _ _ hz, List.mem_cons] at hmem
      rcases hmem with hmem | hmem | hmem
      · exact (Event.configureCall.injEq _ _ _ _).mp hmem |>.2
      · exact absurd hmem (by simp)
      · exact ih usable hmem
    · rw [organise_layer_skip v rest full usable false hb] at hmem
      exact ih usable hmem

/-! Lemmas about whole passes. -/

theorem configuredSurfaces_append (a b : List Event) :
    configuredSurfaces (a ++ b) = configuredSurfaces a ++ configuredSurfaces b :=
  List.filterMap_append a b _

theorem reportedDeltas_append (a b : List Event) :
    reportedDeltas (a ++ b) = reportedDeltas a ++ reportedDeltas b :=
  List.filterMap_append a b _

theorem focusRequests_append (a b : List Event) :
    focusRequests (a ++ b) = focusRequests a ++ focusRequests b :=
  List.filterMap_append a b _

theorem organise_pass_configured (o : Output) (full usable : Box)
    (exclusive : Bool) :
    configuredSurfaces (organise_pass o full usable exclusive).2 =
      (scanOrder o).filter
        (fun w => exclusive == decide (0 < w.surface.current.exclusive_zone)) := by
  rw [organise_pass_eq]
  simp only [configuredSurfaces_append, organise_layer_configured, scanOrder,
    List.filter_append, List.append_assoc]

theorem organise_pass_no_reserve (o : Output) (full usable : Box)
    (exclusive : Bool) :
    reportedDeltas (organise_pass o full usable exclusive).2 = [] := by
  rw [organise_pass_eq]
  simp only [reportedDeltas_append, organise_layer_no_reserve, List.append_nil]

theorem organise_pass_no_focus (o : Output) (full usable : Box)
    (exclusive : Bool) :
    focusRequests (organise_pass o full usable exclusive).2 = [] := by
  rw [organise_pass_eq]
  simp only [focusRequests_append, organise_layer_no_focus, List.append_nil]

theorem organise_pass_usable_nonexclusive (o : Output) (full usable : Box) :
    (organise_pass o full usable false).1 = usable := by
  rw [organise_pass_eq]
  simp only [organise_layer_usable_nonexclusive]

theorem organise_pass_configure_usable (o : Output) (full usable : Box)
    (w : LayerStatic) (b : Box)
    (hmem : Event.configureCall w b ∈ (organise_pass o full usable false).2) :
    b = usable := by
  rw [organise_pass_eq] at hmem
  simp only [organise_layer_usable_nonexclusive, List.mem_append] at hmem
  rcases hmem with hmem | hmem | hmem | hmem <;>
    exact organise_layer_configure_usable _ full usable w b hmem

/-! Lemmas about the exclusive-focus scan. -/

theorem scanFocus_exclusive (w : LayerStatic) (rest : List LayerStatic)
    (holder : Option LayerStatic) (hw : wantsExclusiveFocus w = true) :
    scanFocus (w :: rest) holder = ⟨some w, [w], [w]⟩ := by
  have hx : w.surface.current.keyboard_interactive = KeyboardInteractivity.exclusive :=
    of_decide_eq_true hw
  simp [scanFocus, hx]

theorem scanFocus_not_exclusive (w : LayerStatic) (rest : List LayerStatic)
    (holder : Option LayerStatic) (hw : wantsExclusiveFocus w = false) :
    scanFocus (w :: rest) holder =
      ⟨(scanFocus rest (if holder = some w then none else holder)).holder,
       (scanFocus rest (if holder = some w then none else holder)).focused,
       w :: (scanFocus rest (if holder = some w then none else holder)).visited⟩ := by
  have hx : ¬ w.surface.current.keyboard_interactive = KeyboardInteractivity.exclusive :=
    of_decide_eq_false hw
  by_cases hh : holder = some w <;> simp [scanFocus, hx, hh]

theorem scanFocus_find_some (l : List LayerStatic) (holder : Option LayerStatic)
    (w : LayerStatic) (hf : l.find? wantsExclusiveFocus = some w) :
    scanFocus l holder =
      ⟨some w, [w], l.takeWhile (fun v => !wantsExclusiveFocus v) ++ [w]⟩ := by
  induction l generalizing holder with
  | nil => simp at hf
  | cons v rest ih =>
    rcases Bool.eq_false_or_eq_true (wantsExclusiveFocus v) with hv | hv
    · rw [List.find?_cons_of_pos _ hv] at hf
      have hvw : v = w := Option.some.inj hf
      subst hvw
      rw [scanFocus_exclusive v rest holder hv, List.takeWhile_cons, hv]
      simp
    · rw [List.find?_cons_of_neg _ (by simp [hv])] at hf
      rw [scanFocus_not_exclusive v rest holder hv,
        ih (if holder = some v then none else holder) hf,
        List.takeWhile_cons, hv]
      simp

theorem scanFocus_find_none (l : List LayerStatic) (holder : Option LayerStatic)
    (hf : l.find? wantsExclusiveFocus = none) :
    scanFocus l holder =
      ⟨if holder ∈ l.map some then none else holder, [], l⟩ := by
  induction l generalizing holder with
  | nil => simp [scanFocus]
  | cons v rest ih =>
    have hv : wantsExclusiveFocus v = false := by
      have := List.find?_eq_none.mp hf v (List.mem_cons_self v rest)
      simpa using this
    have hrest : rest.find? wantsExclusiveFocus = none := by
      rw [List.find?_cons_of_neg _ (by simp [hv])] at hf
      exact hf
    rw [scanFocus_not_exclusive v rest holder hv]
    by_cases hh : holder = some v
    · rw [if_pos hh, ih none hrest]
      have h2 : holder ∈ (v :: rest).map some := by
        rw [hh]
        simp
      rw [if_pos h2]
      simp
    · rw [if_neg hh, ih holder hrest]
      have h3 : (holder ∈ (v :: rest).map some) ↔ (holder ∈ rest.map some) := by
        simp only [List.map_cons, List.mem_cons]
        constructor
        · intro h
          rcases h with h | h
          · exact absurd h hh
          · exact h
        · exact Or.inr
      by_cases hm : holder ∈ rest.map some
      · rw [if_pos hm, if_pos (h3.mpr hm)]
      · rw [if_neg hm, if_neg (fun hc => hm (h3.mp hc))]

/-! Named views of the computation, used in claim statements. -/

/-- The full output area used by `organise_layers`. -/
def fullBox (o : Output) : Box :=
  ⟨0, 0, o.effectiveWidth, o.effectiveHeight⟩

/-- Usable area left after the exclusive pass (the area the margins are
computed from). -/
def exclusiveUsable (o : Output) : Box :=
  (organise_pass o (fullBox o) (fullBox o) true).1

/-- Events of the non-exclusive pass. -/
def nonExclusiveLog (o : Output) : List Event :=
  (organise_pass o (fullBox o) (exclusiveUsable o) false).2

/-- The margins stored by `organise_layers` (left, right, top, bottom). -/
def reservedMargins (o : Output) (h : Option LayerStatic) : Int × Int × Int × Int :=
  (organise_layers o h).out.reserved_space

theorem reservedMargins_eq (o : Output) (h : Option LayerStatic) :
    reservedMargins o h =
      new_reserved_space o.effectiveWidth o.effectiveHeight (exclusiveUsable o) :=
  rfl

/-! The usable area stays inside the full area. -/

/-- Invariant: the usable area is contained in the `ow × oh` full area. -/
def usable_inv (ow oh : Int) (u : Box) : Prop :=
  0 ≤ u.x ∧ u.x + u.width ≤ ow ∧ 0 ≤ u.y ∧ u.y + u.height ≤ oh

theorem configure_inv (state : SurfaceState) (full u : Box) (ow oh : Int)
    (h : usable_inv ow oh u) : usable_inv ow oh (configure state full u) := by
  obtain ⟨h1, h2, h3, h4⟩ := h
  unfold configure
  split_ifs with hz
  · cases state.anchor <;> exact ⟨by dsimp; omega, by dsimp; omega,
      by dsimp; omega, by dsimp; omega⟩
  · exact ⟨h1, h2, h3, h4⟩

theorem organise_layer_inv (l : List LayerStatic) (full u : Box)
    (exclusive : Bool) (ow oh : Int) (h : usable_inv ow oh u) :
    usable_inv ow oh (organise_layer l full u exclusive).1 := by
  induction l generalizing u with
  | nil => exact h
  | cons w rest ih =>
    rcases Bool.eq_false_or_eq_true
        (exclusive == decide (0 < w.surface.current.exclusive_zone)) with hb | hb
    · rw [organise_layer_take w rest full u exclusive hb]
      exact ih _ (configure_inv w.surface.current full u ow oh h)
    · rw [organise_layer_skip w rest full u exclusive hb]
      exact ih u h

theorem organise_pass_inv (o : Output) (full u : Box) (exclusive : Bool)
    (ow oh : Int) (h : usable_inv ow oh u) :
    usable_inv ow oh (organise_pass o full u exclusive).1 := by
  rw [organise_pass_eq]
  exact organise_layer_inv _ _ _ _ _ _
    (organise_layer_inv _ _ _ _ _ _
      (organise_layer_inv _ _ _ _ _ _
        (organise_layer_inv _ _ _ _ _ _ h)))

theorem usable_inv_init (ow oh : Int) :
    usable_inv ow oh ⟨0, 0, ow, oh⟩ := by
  unfold usable_inv
  dsimp
  omega

theorem exclusiveUsable_inv (o : Output) :
    usable_inv o.effectiveWidth o.effectiveHeight (exclusiveUsable o) :=
  organise_pass_inv o (fullBox o) (fullBox o) true _ _
    (usable_inv_init o.effectiveWidth o.effectiveHeight)

/-! The reported delta. -/

theorem reportedDeltas_organise_layers (o : Output) (h : Option LayerStatic) :
    reportedDeltas (organise_layers o h).log =
      [delta4 (new_reserved_space o.effectiveWidth o.effectiveHeight
        (exclusiveUsable o)) o.reserved_space] := by
  rw [organise_layers_log]
  simp only [reportedDeltas_append, organise_pass_no_reserve]
  simp [reportedDeltas, List.filterMap_cons, List.filterMap_map, Function.comp,
    exclusiveUsable, fullBox]

theorem organise_pass_update (o : Output) (r : Int × Int × Int × Int)
    (full u : Box) (exclusive : Bool) :
    organise_pass { o with reserved_space := r } full u exclusive =
      organise_pass o full u exclusive :=
  rfl

/-! Claim theorems. -/

/-- C6: for every invocation of the frame handler, if the scene-output
commit fails the handler returns with no other effect (no send-frame-done,
no error surfaced), and if the commit succeeds, send-frame-done is called
exactly once with the monotonic-clock timestamp; send-frame-done happens
iff the commit succeeds. -/
theorem C6_frame_handler (c : Except Unit Unit) (t : Int) :
    (∀ e, c = Except.error e → on_frame c t = []) ∧
    (c = Except.ok () → on_frame c t = [FrameEffect.sendFrameDone t]) ∧
    (on_frame c t ≠ [] ↔ c = Except.ok ()) := by
  cases c with
  | error e => simp [on_frame]
  | ok u => cases u; simp [on_frame]

/-- C6 witness: concrete success and failure runs of the frame handler. -/
theorem C6_frame_handler_witness :
    on_frame (Except.ok ()) 42 = [FrameEffect.sendFrameDone 42] ∧
    on_frame (Except.error ()) 42 = [] :=
  ⟨(C6_frame_handler (Except.ok ()) 42).2.1 rfl,
   (C6_frame_handler (Except.error ()) 42).1 () rfl⟩

/-- Modelled from the spec: the rectangle lies entirely left of, above,
right of, or below the output's bounding box (rectangles taken as closed
boxes, so sharing only a boundary line does not count as lying entirely
outside). -/
def entirely_outside (o : Output) (rect : Box) : Prop :=
  rect.x + rect.width < o.x ∨ rect.y + rect.height < o.y ∨
  o.x + o.effectiveWidth < rect.x ∨ o.y + o.effectiveHeight < rect.y

/-- C7: `contains` returns false exactly when the rectangle lies entirely
left of, above, right of, or below the output's bounding box; in
particular for an output at x=0, width 1920, a rect at x=2000 of width 100
is not contained and a rect at x=1800 of width 300 is. -/
theorem C7_contains_spec (o : Output) (rect : Box) :
    (contains o rect = false ↔ entirely_outside o rect) ∧
    contains ⟨0, 0, 1920, 1080, [], [], [], [], (0, 0, 0, 0)⟩
      ⟨2000, 0, 100, 100⟩ = false ∧
    contains ⟨0, 0, 1920, 1080, [], [], [], [], (0, 0, 0, 0)⟩
      ⟨1800, 0, 300, 100⟩ = true := by
  refine ⟨?_, by decide, by decide⟩
  by_cases h1 : rect.x + rect.width < o.x <;>
    by_cases h2 : rect.y + rect.height < o.y <;>
      by_cases h3 : o.x + o.effectiveWidth < rect.x <;>
        by_cases h4 : o.y + o.effectiveHeight < rect.y <;>
          simp [contains, entirely_outside, h1, h2, h3, h4]

/-- C9: `contains` uses strict comparisons, so a rectangle that merely
touches the output's boundary (zero-area overlap) is reported as
contained: touching on the left or right vertical edge while not strictly
beyond on the vertical axis yields true, and symmetrically for the
horizontal edges. -/
theorem C9_touching_contained (o : Output) (rect : Box)
    (hw : 0 ≤ rect.width) (hh : 0 ≤ rect.height)
    (how : 0 ≤ o.effectiveWidth) (hoh : 0 ≤ o.effectiveHeight) :
    (¬ rect.y + rect.height < o.y → ¬ o.y + o.effectiveHeight < rect.y →
      (rect.x + rect.width = o.x ∨ rect.x = o.x + o.effectiveWidth) →
      contains o rect = true) ∧
    (¬ rect.x + rect.width < o.x → ¬ o.x + o.effectiveWidth < rect.x →
      (rect.y + rect.height = o.y ∨ rect.y = o.y + o.effectiveHeight) →
      contains o rect = true) := by
  constructor
  · intro hv1 hv2 htouch
    unfold contains
    rcases htouch with ht | ht <;> split_ifs with h1 h2 h3 h4 <;>
      first
      | rfl
      | omega
  · intro hv1 hv2 htouch
    unfold contains
    rcases htouch with ht | ht <;> split_ifs with h1 h2 h3 h4 <;>
      first
      | rfl
      | omega

/-- C9 witness: a 100-wide rect ending exactly at the output's left edge is
reported as contained. -/
theorem C9_touching_contained_witness :
    contains ⟨0, 0, 1920, 1080, [], [], [], [], (0, 0, 0, 0)⟩
      ⟨-100, 0, 100, 100⟩ = true :=
  (C9_touching_contained ⟨0, 0, 1920, 1080, [], [], [], [], (0, 0, 0, 0)⟩
      ⟨-100, 0, 100, 100⟩ (by decide) (by decide) (by decide) (by decide)).1
    (by decide) (by decide) (Or.inl (by decide))

/-- Exact geometry match used by the `screen` accessor, decomposed the way
the source nests its two conditions (position first, then size). -/
def geometry_match (x y w h : Int) (s : Screen) : Prop :=
  (s.x = x ∧ s.y = y) ∧ (s.width = w ∧ s.height = h)

theorem screen_search_cons_of_match (x y w h : Int) (s : Screen)
    (rest : List Screen) (hm : geometry_match x y w h s) :
    screen_search x y w h (s :: rest) = some s := by
  simp only [screen_search]
  rw [if_pos hm.1, if_pos hm.2]

theorem screen_search_cons_of_not (x y w h : Int) (s : Screen)
    (rest : List Screen) (hm : ¬ geometry_match x y w h s) :
    screen_search x y w h (s :: rest) = screen_search x y w h rest := by
  simp only [screen_search]
  by_cases h1 : s.x = x ∧ s.y = y
  · rw [if_pos h1, if_neg (fun hc => hm ⟨h1, hc⟩)]
  · rw [if_neg h1]

theorem screen_search_none (x y w h : Int) (l : List Screen)
    (hnone : ∀ s ∈ l, ¬ geometry_match x y w h s) :
    screen_search x y w h l = none := by
  induction l with
  | nil => rfl
  | cons s rest ih =>
    rw [screen_search_cons_of_not x y w h s rest
      (hnone s (List.mem_cons_self s rest))]
    exact ih fun t ht => hnone t (List.mem_cons_of_mem s ht)

theorem screen_search_first (x y w h : Int) (pre post : List Screen)
    (s : Screen) (hs : geometry_match x y w h s)
    (hpre : ∀ t ∈ pre, ¬ geometry_match x y w h t) :
    screen_search x y w h (pre ++ s :: post) = some s := by
  induction pre with
  | nil => exact screen_search_cons_of_match x y w h s post hs
  | cons t rest ih =>
    rw [List.cons_append, screen_search_cons_of_not x y w h t _
      (hpre t (List.mem_cons_self t rest))]
    exact ih fun u hu => hpre u (List.mem_cons_of_mem t hu)

/-- C8: with more than one configured screen, the accessor returns the
first screen whose position and size both exactly match this output's
geometry; with no exact match, or with at most one configured screen, it
returns the externally-tracked current screen. -/
theorem C8_screen_accessor (o : Output) (screens : List Screen)
    (cur : Screen) :
    (¬ 1 < screens.length → Output.screen o screens cur = cur) ∧
    ((∀ s ∈ screens,
        ¬ geometry_match o.x o.y o.effectiveWidth o.effectiveHeight s) →
      Output.screen o screens cur = cur) ∧
    (∀ pre s post, screens = pre ++ s :: post →
      geometry_match o.x o.y o.effectiveWidth o.effectiveHeight s →
      (∀ t ∈ pre,
        ¬ geometry_match o.x o.y o.effectiveWidth o.effectiveHeight t) →
      1 < screens.length →
      Output.screen o screens cur = s) := by
  refine ⟨?_, ?_, ?_⟩
  · intro hlen
    unfold Output.screen
    rw [if_neg hlen]
  · intro hnone
    unfold Output.screen
    by_cases hlen : 1 < screens.length
    · rw [if_pos hlen, screen_search_none _ _ _ _ _ hnone]
    · rw [if_neg hlen]
  · intro pre s post hsplit hs hpre hlen
    unfold Output.screen
    rw [if_pos hlen, hsplit, screen_search_first _ _ _ _ _ _ _ hs hpre]

/-- C8 witness: with two configured screens, the second one exactly
matching a 1920x1080 output at the origin, the accessor picks the match;
with a single configured screen, it returns the current screen. -/
theorem C8_screen_accessor_witness :
    Output.screen ⟨0, 0, 1920, 1080, [], [], [], [], (0, 0, 0, 0)⟩
      [⟨01, 1920, 0, 800, 600⟩, ⟨02, 0, 0, 1920, 1080⟩] ⟨99, 5, 5, 5, 5⟩ =
        ⟨02, 0, 0, 1920, 1080⟩ ∧
    Output.screen ⟨0, 0, 1920, 1080, [], [], [], [], (0, 0, 0, 0)⟩
      [⟨02, 0, 0, 1920, 1080⟩] ⟨99, 5, 5, 5, 5⟩ = ⟨99, 5, 5, 5, 5⟩ :=
  ⟨(C8_screen_accessor ⟨0, 0, 1920, 1080, [], [], [], [], (0, 0, 0, 0)⟩
      [⟨01, 1920, 0, 800, 600⟩, ⟨02, 0, 0, 1920, 1080⟩] ⟨99, 5, 5, 5, 5⟩).2.2
      [⟨01, 1920, 0, 800, 600⟩] ⟨02, 0, 0, 1920, 1080⟩ [] rfl
      (by constructor <;> constructor <;> rfl)
      (by
        intro t ht hm
        simp only [List.mem_singleton] at ht
        subst ht
        exact absurd hm.1.1 (by decide))
      (by decide),
   (C8_screen_accessor ⟨0, 0, 1920, 1080, [], [], [], [], (0, 0, 0, 0)⟩
      [⟨02, 0, 0, 1920, 1080⟩] ⟨99, 5, 5, 5, 5⟩).1 (by decide)⟩

/-! Small event-log computation lemmas. -/

theorem configuredSurfaces_reserve (d : Int × Int × Int × Int) :
    configuredSurfaces [Event.reserveCall d] = [] :=
  rfl

theorem configuredSurfaces_focus_map (l : List LayerStatic) :
    configuredSurfaces (l.map Event.focusCall) = [] := by
  rw [configuredSurfaces, List.filterMap_eq_nil_iff]
  intro e he
  rcases List.mem_map.mp he with ⟨w, hw, rfl⟩
  rfl

theorem focusRequests_reserve (d : Int × Int × Int × Int) :
    focusRequests [Event.reserveCall d] = [] :=
  rfl

theorem focusRequests_focus_map (l : List LayerStatic) :
    focusRequests (l.map Event.focusCall) = l := by
  induction l with
  | nil => rfl
  | cons w rest ih =>
    simp only [List.map_cons, focusRequests, List.filterMap_cons] at ih ⊢
    rw [ih]

/-- C1 (amended): provided the holder on entry is null or references a
surface currently in this output's OVERLAY or TOP bucket, then after
`organise_layers` exactly one of the following holds: the holder is null,
or the holder references a surface in the OVERLAY or TOP bucket whose
committed keyboard interactivity is EXCLUSIVE. -/
theorem C1_holder_invariant_amended (o : Output) (h : Option LayerStatic)
    (hpre : h = none ∨ ∃ s ∈ o.overlay ++ o.top, h = some s) :
    ((organise_layers o h).holder = none ∧
      ¬ ∃ s ∈ o.overlay ++ o.top, (organise_layers o h).holder = some s ∧
        s.surface.current.keyboard_interactive = KeyboardInteractivity.exclusive) ∨
    ((organise_layers o h).holder ≠ none ∧
      ∃ s ∈ o.overlay ++ o.top, (organise_layers o h).holder = some s ∧
        s.surface.current.keyboard_interactive = KeyboardInteractivity.exclusive) := by
  rw [organise_layers_holder]
  cases hf : (o.overlay ++ o.top).find? wantsExclusiveFocus with
  | some w =>
    rw [scanFocus_find_some _ h w hf]
    have hp : wantsExclusiveFocus w = true := List.find?_some hf
    refine Or.inr ⟨by simp, w, List.mem_of_find?_eq_some hf, rfl,
      of_decide_eq_true hp⟩
  | none =>
    rw [scanFocus_find_none _ h hf]
    left
    have hnone : (if h ∈ (o.overlay ++ o.top).map some then none else h) =
        (none : Option LayerStatic) := by
      rcases hpre with rfl | ⟨s, hs, rfl⟩
      · simp
      · rw [if_pos (List.mem_map.mpr ⟨s, hs, rfl⟩)]
    constructor
    · exact hnone
    · rintro ⟨s, hs, heq, hx⟩
      rw [hnone] at heq
      exact Option.noConfusion heq

/-- Surface used by the C1 counterexample: it previously held exclusive
focus but now sits in the BOTTOM bucket. -/
def c1Surface : LayerStatic :=
  ⟨7, ⟨⟨0, Edge.top, 100, 20, KeyboardInteractivity.exclusive⟩⟩⟩

/-- Output for the C1 counterexample: the stale holder's surface is in the
BOTTOM bucket, and no OVERLAY/TOP surface is EXCLUSIVE. -/
def c1Output : Output :=
  ⟨0, 0, 1920, 1080, [], [c1Surface], [], [], (0, 0, 0, 0)⟩

/-- C1 counterexample: when the recorded holder's surface has moved to the
BOTTOM bucket, `organise_layers` leaves the stale holder in place, so the
claimed invariant (null holder, or holder in OVERLAY/TOP and EXCLUSIVE)
fails after the call. -/
theorem C1_counterexample :
    ¬ ((organise_layers c1Output (some c1Surface)).holder = none ∨
       ∃ s ∈ c1Output.overlay ++ c1Output.top,
         (organise_layers c1Output (some c1Surface)).holder = some s ∧
         s.surface.current.keyboard_interactive =
           KeyboardInteractivity.exclusive) := by
  decide

/-- Surface for the C1 witness: an EXCLUSIVE surface in the OVERLAY
bucket. -/
def c1GoodSurface : LayerStatic :=
  ⟨11, ⟨⟨0, Edge.top, 0, 0, KeyboardInteractivity.exclusive⟩⟩⟩

/-- Output for the C1 witness. -/
def c1GoodOutput : Output :=
  ⟨0, 0, 1920, 1080, [], [], [], [c1GoodSurface], (0, 0, 0, 0)⟩

/-- C1 witness: the amended invariant at a concrete output whose OVERLAY
bucket holds an EXCLUSIVE surface, entered with a null holder. -/
theorem C1_holder_invariant_amended_witness :
    ((organise_layers c1GoodOutput none).holder = none ∧
      ¬ ∃ s ∈ c1GoodOutput.overlay ++ c1GoodOutput.top,
        (organise_layers c1GoodOutput none).holder = some s ∧
        s.surface.current.keyboard_interactive = KeyboardInteractivity.exclusive) ∨
    ((organise_layers c1GoodOutput none).holder ≠ none ∧
      ∃ s ∈ c1GoodOutput.overlay ++ c1GoodOutput.top,
        (organise_layers c1GoodOutput none).holder = some s ∧
        s.surface.current.keyboard_interactive = KeyboardInteractivity.exclusive) :=
  C1_holder_invariant_amended c1GoodOutput none (Or.inl rfl)

/-- C2: in one `organise_layers` call the configure capability is invoked
exactly on the surfaces with exclusive zone > 0 first (layers OVERLAY, TOP,
BOTTOM, BACKGROUND, stacking order within each), then exactly on the
surfaces with exclusive zone ≤ 0; the non-exclusive pass does not change
the usable area and places every surface against the final usable area
left by the exclusive pass. -/
theorem C2_two_pass_order (o : Output) (h : Option LayerStatic) :
    (configuredSurfaces (organise_layers o h).log =
      (scanOrder o).filter
        (fun w => decide (0 < w.surface.current.exclusive_zone)) ++
      (scanOrder o).filter
        (fun w => ! decide (0 < w.surface.current.exclusive_zone))) ∧
    (organise_pass o (fullBox o) (exclusiveUsable o) false).1 = exclusiveUsable o ∧
    (∀ w b, Event.configureCall w b ∈ nonExclusiveLog o → b = exclusiveUsable o) := by
  refine ⟨?_, organise_pass_usable_nonexclusive o (fullBox o) (exclusiveUsable o),
    fun w b hmem => organise_pass_configure_usable o (fullBox o)
      (exclusiveUsable o) w b hmem⟩
  rw [organise_layers_log]
  simp only [configuredSurfaces_append, configuredSurfaces_reserve,
    configuredSurfaces_focus_map, organise_pass_configured,
    List.append_nil, List.nil_append]
  simp [Bool.true_beq, Bool.false_beq]

/-- Surface for the C2 witness: a TOP-bucket bar reserving 32 pixels at the
top edge. -/
def c2Bar : LayerStatic :=
  ⟨21, ⟨⟨32, Edge.top, 1920, 32, KeyboardInteractivity.noneKI⟩⟩⟩

/-- Surface for the C2 witness: a BACKGROUND-bucket wallpaper with zone 0. -/
def c2Wallpaper : LayerStatic :=
  ⟨22, ⟨⟨0, Edge.top, 1920, 1080, KeyboardInteractivity.noneKI⟩⟩⟩

/-- Output for the C2 witness. -/
def c2Output : Output :=
  ⟨0, 0, 1920, 1080, [c2Wallpaper], [], [c2Bar], [], (0, 0, 0, 0)⟩

/-- C2 witness: on a concrete output with one exclusive bar and one
non-exclusive wallpaper, the chronological configure order is bar then
wallpaper, and the wallpaper is configured against the shrunk usable area
(0, 32, 1920, 1048), which the non-exclusive pass leaves unchanged. -/
theorem C2_two_pass_order_witness :
    configuredSurfaces (organise_layers c2Output none).log =
      [c2Bar, c2Wallpaper] ∧
    exclusiveUsable c2Output = ⟨0, 32, 1920, 1048⟩ ∧
    Event.configureCall c2Wallpaper ⟨0, 32, 1920, 1048⟩ ∈ nonExclusiveLog c2Output ∧
    (∀ b, Event.configureCall c2Wallpaper b ∈ nonExclusiveLog c2Output →
      b = exclusiveUsable c2Output) :=
  ⟨by
    rw [(C2_two_pass_order c2Output none).1]
    decide,
   by decide,
   by decide,
   fun b hmem => (C2_two_pass_order c2Output none).2.2 c2Wallpaper b hmem⟩

/-- C3: calling `organise_layers` twice with no change to any surface's
committed state or to the effective resolution in between makes the second
call report delta = (0, 0, 0, 0) to the desktop-usable-area sink, because
the first call stored the new margins. -/
theorem C3_second_call_delta_zero (o : Output) (h : Option LayerStatic) :
    reportedDeltas (organise_layers (organise_layers o h).out
        (organise_layers o h).holder).log = [(0, 0, 0, 0)] := by
  rw [reportedDeltas_organise_layers, organise_layers_out]
  show [delta4
      (new_reserved_space o.effectiveWidth o.effectiveHeight (exclusiveUsable o))
      (new_reserved_space o.effectiveWidth o.effectiveHeight (exclusiveUsable o))] =
    [(0, 0, 0, 0)]
  simp [delta4]

/-- C4 counterexample: a single left-anchored surface with exclusive zone
2000 on a 1920x1080 output yields margins (2000, 0, 0, 0): every margin is
still non-negative, but left + right = 2000 exceeds the effective width,
refuting the claimed bound. -/
theorem C4_counterexample :
    reservedMargins ⟨0, 0, 1920, 1080, [],
        [], [⟨3, ⟨⟨2000, Edge.left, 0, 0, KeyboardInteractivity.noneKI⟩⟩⟩], [],
        (0, 0, 0, 0)⟩ none = (2000, 0, 0, 0) ∧
    ¬ ((reservedMargins ⟨0, 0, 1920, 1080, [],
        [], [⟨3, ⟨⟨2000, Edge.left, 0, 0, KeyboardInteractivity.noneKI⟩⟩⟩], [],
        (0, 0, 0, 0)⟩ none).1 +
      (reservedMargins ⟨0, 0, 1920, 1080, [],
        [], [⟨3, ⟨⟨2000, Edge.left, 0, 0, KeyboardInteractivity.noneKI⟩⟩⟩], [],
        (0, 0, 0, 0)⟩ none).2.1 ≤ (1920 : Int)) := by
  constructor
  · decide
  · decide

/-- C4 (amended): every margin computed by `organise_layers` is ≥ 0, and
with no surfaces on any layer the margins are exactly (0, 0, 0, 0); the
bounds left + right ≤ effectiveWidth and top + bottom ≤ effectiveHeight
hold provided the exclusive pass leaves a usable area of non-negative
width (respectively height), i.e. the exclusive zones do not oversubscribe
the output. -/
theorem C4_margins_amended (o : Output) (h : Option LayerStatic) :
    (0 ≤ (reservedMargins o h).1 ∧ 0 ≤ (reservedMargins o h).2.1 ∧
     0 ≤ (reservedMargins o h).2.2.1 ∧ 0 ≤ (reservedMargins o h).2.2.2) ∧
    (0 ≤ (exclusiveUsable o).width →
      (reservedMargins o h).1 + (reservedMargins o h).2.1 ≤ o.effectiveWidth) ∧
    (0 ≤ (exclusiveUsable o).height →
      (reservedMargins o h).2.2.1 + (reservedMargins o h).2.2.2 ≤
        o.effectiveHeight) ∧
    (o.overlay = [] → o.top = [] → o.bottom = [] → o.background = [] →
      reservedMargins o h = (0, 0, 0, 0)) := by
  obtain ⟨h1, h2, h3, h4⟩ := exclusiveUsable_inv o
  rw [reservedMargins_eq]
  unfold new_reserved_space
  refine ⟨⟨by dsimp; omega, by dsimp; omega, by dsimp; omega, by dsimp; omega⟩,
    ?_, ?_, ?_⟩
  · intro hw
    dsimp
    omega
  · intro hh2
    dsimp
    omega
  · intro hov htop hbot hbak
    have he : exclusiveUsable o = fullBox o := by
      unfold exclusiveUsable
      rw [organise_pass_eq]
      simp only [hov, htop, hbot, hbak, organise_layer]
    rw [he]
    unfold fullBox
    dsimp
    simp [Prod.ext_iff]

/-- C4 witness: the amended bounds at a concrete empty 1920x1080 output. -/
theorem C4_margins_amended_witness :
    reservedMargins ⟨0, 0, 1920, 1080, [], [], [], [], (0, 0, 0, 0)⟩ none =
      (0, 0, 0, 0) ∧
    (reservedMargins ⟨0, 0, 1920, 1080, [], [], [], [], (0, 0, 0, 0)⟩ none).1 +
      (reservedMargins ⟨0, 0, 1920, 1080, [], [], [], [], (0, 0, 0, 0)⟩ none).2.1 ≤
      (1920 : Int) :=
  ⟨(C4_margins_amended ⟨0, 0, 1920, 1080, [], [], [], [], (0, 0, 0, 0)⟩
      none).2.2.2 rfl rfl rfl rfl,
   (C4_margins_amended ⟨0, 0, 1920, 1080, [], [], [], [], (0, 0, 0, 0)⟩
      none).2.1 (by decide)⟩

/-- C5: the first surface in scan order (OVERLAY bucket before TOP bucket,
stacking order within each) whose committed keyboard interactivity is
EXCLUSIVE becomes the exclusive focus holder, the focus router is asked to
focus exactly that window, and the scan visits no surface after it. -/
theorem C5_first_exclusive_focus (o : Output) (h : Option LayerStatic)
    (w : LayerStatic)
    (hf : (o.overlay ++ o.top).find? wantsExclusiveFocus = some w) :
    (organise_layers o h).holder = some w ∧
    focusRequests (organise_layers o h).log = [w] ∧
    (scanFocus (o.overlay ++ o.top) h).visited =
      (o.overlay ++ o.top).takeWhile (fun v => ! wantsExclusiveFocus v) ++ [w] := by
  have hs := scanFocus_find_some (o.overlay ++ o.top) h w hf
  refine ⟨?_, ?_, ?_⟩
  · rw [organise_layers_holder, hs]
  · rw [organise_layers_log]
    simp only [focusRequests_append, organise_pass_no_focus,
      focusRequests_reserve, hs, List.append_nil, List.nil_append]
    exact focusRequests_focus_map [w]
  · rw [hs]

/-- Overlay surface S1 for scenario C. -/
def c5S1 : LayerStatic :=
  ⟨31, ⟨⟨0, Edge.top, 0, 0, KeyboardInteractivity.exclusive⟩⟩⟩

/-- Top-layer surface S2 for scenario C. -/
def c5S2 : LayerStatic :=
  ⟨32, ⟨⟨0, Edge.top, 0, 0, KeyboardInteractivity.exclusive⟩⟩⟩

/-- Output for scenario C: S1 in OVERLAY, S2 in TOP, both EXCLUSIVE. -/
def c5Output : Output :=
  ⟨0, 0, 1920, 1080, [], [], [c5S2], [c5S1], (0, 0, 0, 0)⟩

/-- C5 witness (scenario C): with EXCLUSIVE S1 in OVERLAY preceding
EXCLUSIVE S2 in TOP, the holder becomes S1, focus is requested exactly for
S1, and the scan stops at S1 without visiting S2. -/
theorem C5_first_exclusive_focus_witness :
    (c5Output.overlay ++ c5Output.top).find? wantsExclusiveFocus = some c5S1 ∧
    (organise_layers c5Output none).holder = some c5S1 ∧
    focusRequests (organise_layers c5Output none).log = [c5S1] ∧
    (scanFocus (c5Output.overlay ++ c5Output.top) none).visited = [c5S1] :=
  ⟨by decide,
   (C5_first_exclusive_focus c5Output none c5S1 (by decide)).1,
   (C5_first_exclusive_focus c5Output none c5S1 (by decide)).2.1,
   by decide⟩

/-- C10: the exclusive focus holder is a single compositor-wide field
shared by every output: running `organise_layers` on output `b` operates
on the holder value left by output `a`'s run — it overwrites it whenever
`b` has an EXCLUSIVE surface in OVERLAY/TOP, clears it when `b` has none
and the holder's surface lies in `b`'s scanned buckets, and otherwise
reads it and passes it through unchanged. -/
theorem C10_shared_holder (a b : Output) (h0 : Option LayerStatic) :
    (∀ w, (b.overlay ++ b.top).find? wantsExclusiveFocus = some w →
      (organise_layers b (organise_layers a h0).holder).holder = some w) ∧
    ((b.overlay ++ b.top).find? wantsExclusiveFocus = none →
      (∃ s ∈ b.overlay ++ b.top, (organise_layers a h0).holder = some s) →
      (organise_layers b (organise_layers a h0).holder).holder = none) ∧
    ((b.overlay ++ b.top).find? wantsExclusiveFocus = none →
      (∀ s ∈ b.overlay ++ b.top, (organise_layers a h0).holder ≠ some s) →
      (organise_layers b (organise_layers a h0).holder).holder =
        (organise_layers a h0).holder) := by
  refine ⟨?_, ?_, ?_⟩
  · intro w hf
    rw [organise_layers_holder, scanFocus_find_some _ _ w hf]
  · rintro hf ⟨s, hs, hh⟩
    rw [organise_layers_holder, scanFocus_find_none _ _ hf]
    show (if (organise_layers a h0).holder ∈ (b.overlay ++ b.top).map some
        then none else (organise_layers a h0).holder) = none
    rw [if_pos (List.mem_map.mpr ⟨s, hs, hh.symm⟩)]
  · intro hf hno
    rw [organise_layers_holder, scanFocus_find_none _ _ hf]
    show (if (organise_layers a h0).holder ∈ (b.overlay ++ b.top).map some
        then none else (organise_layers a h0).holder) =
      (organise_layers a h0).holder
    rw [if_neg]
    intro hc
    rcases List.mem_map.mp hc with ⟨s, hs, heq⟩
    exact hno s hs heq.symm

/-- Exclusive OVERLAY surface on output A for the C10 witness. -/
def c10sA : LayerStatic :=
  ⟨41, ⟨⟨0, Edge.top, 0, 0, KeyboardInteractivity.exclusive⟩⟩⟩

/-- Exclusive OVERLAY surface on output B for the C10 witness. -/
def c10sB : LayerStatic :=
  ⟨42, ⟨⟨0, Edge.top, 0, 0, KeyboardInteractivity.exclusive⟩⟩⟩

/-- Output A for the C10 witness. -/
def c10A : Output :=
  ⟨0, 0, 1920, 1080, [], [], [], [c10sA], (0, 0, 0, 0)⟩

/-- Output B for the C10 witness. -/
def c10B : Output :=
  ⟨1920, 0, 1280, 1024, [], [], [], [c10sB], (0, 0, 0, 0)⟩

/-- C10 witness: output A's scan records its surface in the shared holder,
and output B's subsequent scan overwrites that same field with B's own
exclusive surface. -/
theorem C10_shared_holder_witness :
    (organise_layers c10A none).holder = some c10sA ∧
    (organise_layers c10B (organise_layers c10A none).holder).holder =
      some c10sB :=
  ⟨by decide, (C10_shared_holder c10A c10B none).1 c10sB (by decide)⟩

end QtileOutput
